import Mathlib

/-!
Verification development for the `do_estimation` data-aggregation pipeline
(`src/Aggregator.py`).  The Python source is shallowly embedded: machine
floats that hold exact decimal fixed-point data (parsed coordinates, Decimal
arithmetic) are modelled as `ℚ`, Python integers as `ℤ`, fallible operations
as `Option`/`PRes`, and the stateful line-stack parser of
`Aggregator.generate_dataset` as a fuel-indexed recursion over the list of
lines in file order (Python reverses the list and pops from the end, which
consumes lines in file order; the model pops from the head).
The external libraries used by the source are embedded as follows:
`jdcal.gcal2jd` by its documented integer Julian-day formula,
`scipy.interpolate.Akima1DInterpolator` as an opaque evaluation function
passed as a parameter (only the evaluation grid, built by the source,
matters to the claims), and `numpy` masked arrays as rectangular lists of
`(value, mask)` cells.
-/

/-- Truncating division toward zero, the semantics of `jdcal.ipart(a / b)`
for integer `a` and positive integer `b` (Python `math.modf` integer part).
Note that `/` on `ℤ` in Lean is floor division, hence the sign split. -/
def ipdiv (a b : ℤ) : ℤ := if 0 ≤ a then a / b else -((-a) / b)

/-- Python `int(x)` applied to an exact rational: truncation toward zero. -/
def pyIntTrunc (q : ℚ) : ℤ := if 0 ≤ q then ⌊q⌋ else ⌈q⌉

/-- Rounding to the nearest integer with ties away from zero: the semantics
of `Decimal.quantize(Decimal(0), rounding=ROUND_HALF_UP)` in
`Aggregator.crop_map` (Python decimal ROUND_HALF_UP rounds ties away from
zero). -/
def roundHalfUp (q : ℚ) : ℤ := if 0 ≤ q then ⌊q + 1/2⌋ else -⌊-q + 1/2⌋

/-- The coordinate rounding step of `Aggregator.crop_map` (lines 186-187):
`Decimal(str(x * 4)).quantize(Decimal(0), ROUND_HALF_UP) / 4`.  The
float-to-shortest-string round trip is exact for the fixed-point coordinate
values the 7-character header fields can carry, so it is modelled as exact
rational arithmetic. -/
def round_to_grid (x : ℚ) : ℚ := ((roundHalfUp (x * 4) : ℚ)) / 4

/-- Python `range(a, b, s)` for a positive step `s` (the only form the
source uses: `range(pre_min, pre_max + pre_interval, pre_interval)` and
`range(n_layer)`), as the list of its elements. -/
def pyRange (a b s : ℤ) : List ℤ :=
  if 0 < s then List.map (fun i : ℕ => a + s * (i : ℤ)) (List.range ((b - a + s - 1) / s).toNat)
  else []

/-- Python list slice `l[a:b]` (nonnegative or negative bounds, clamped),
the semantics of the numpy index windows in `Aggregator.crop_map`. -/
def pyListSlice {α : Type} (l : List α) (a b : ℤ) : List α :=
  let n : ℤ := l.length
  let a' : ℤ := if a < 0 then max 0 (n + a) else min a n
  let b' : ℤ := if b < 0 then max 0 (n + b) else min b n
  (l.take b'.toNat).drop a'.toNat

/-- Python string slice `s[a:b]` with nonnegative bounds. -/
def pyCharSlice (s : List Char) (a b : ℕ) : List Char := (s.take b).drop a

/-- Characters stripped by Python `int()`/`float()` conversion. -/
def isPySpace (c : Char) : Bool := c = ' ' || c = '\t' || c = '\n' || c = '\r'

/-- Python `str.strip()` of whitespace on both ends. -/
def pyStrip (s : List Char) : List Char :=
  ((s.dropWhile isPySpace).reverse.dropWhile isPySpace).reverse

/-- Value of a string of decimal digits. -/
def digitsToNat (ds : List Char) : ℕ := ds.foldl (fun a c => 10 * a + (c.toNat - 48)) 0

/-- Boolean test that every character is a decimal digit. -/
def allDigits (ds : List Char) : Bool := ds.all (fun c => decide ('0' ≤ c) && decide (c ≤ '9'))

/-- Python `int(s)` on the decimal-integer strings the source feeds it
(optional sign, digits, surrounding whitespace); any other form raises in
Python and is `none` here. -/
def pyInt (s : List Char) : Option ℤ :=
  let t := pyStrip s
  let signed : ℤ × List Char :=
    match t with
    | '-' :: r => (-1, r)
    | '+' :: r => (1, r)
    | r => (1, r)
  if signed.2 ≠ [] ∧ allDigits signed.2 then
    some (signed.1 * (digitsToNat signed.2 : ℤ))
  else none

/-- Python `float(s)` on the plain decimal forms the fixed-width profile
files carry (optional sign, digits with at most one decimal point,
surrounding whitespace), returning the exact decimal value; any other form
raises in Python and is `none` here. -/
def pyFloat (s : List Char) : Option ℚ :=
  let t := pyStrip s
  let signed : ℚ × List Char :=
    match t with
    | '-' :: r => (-1, r)
    | '+' :: r => (1, r)
    | r => (1, r)
  match signed.2.splitOn '.' with
  | [ip] =>
      if ip ≠ [] ∧ allDigits ip then some (signed.1 * (digitsToNat ip : ℚ)) else none
  | [ip, fp] =>
      if (ip ≠ [] ∨ fp ≠ []) ∧ allDigits ip ∧ allDigits fp then
        some (signed.1 * ((digitsToNat ip : ℚ) + (digitsToNat fp : ℚ) / 10 ^ fp.length))
      else none
  | _ => none

/-- Single step of the whitespace-run splitter (processed right to left):
state is the token list built so far and whether the character to the right
was a space. -/
def splitRunsStep (c : Char) (st : List (List Char) × Bool) : List (List Char) × Bool :=
  if c = ' ' then
    if st.2 then st else ([] :: st.1, true)
  else
    match st.1 with
    | t :: ts => ((c :: t) :: ts, false)
    | [] => ([[c]], false)

/-- Python `re.split(' +', s)`: split on maximal runs of spaces, keeping
empty fields at the boundaries exactly as `re.split` does. -/
def splitRuns (s : List Char) : List (List Char) :=
  (s.foldr splitRunsStep ([[]], false)).1

/-- Integer-valued part of `jdcal.gcal2jd(y, m, d)` (proleptic Gregorian
calendar to Julian day number); the constant offsets `2400000.5`,
`-2432075.5` and `-0.5` of the library cancel in every difference the
source takes and are dropped. -/
def gcal2jd (y m d : ℤ) : ℤ :=
  ipdiv (1461 * (y + 4800 + ipdiv (m - 14) 12)) 4 +
    ipdiv (367 * (m - 2 - 12 * ipdiv (m - 14) 12)) 12 -
    ipdiv (3 * ipdiv (y + 4900 + ipdiv (m - 14) 12) 100) 4 +
    d

/-- The date triples (year, month, day) manipulated by the model. -/
abbrev Date3 : Type := ℤ × ℤ × ℤ

/-- The body of `Aggregator.calc_days_elapsed` once both date strings have
been converted to (year, month, day): `int(sum(gcal2jd(cur)) - sum(gcal2jd(ref)))`.
The two float sums are exact half-integers for the year range of the
`YYYYMMDD` format, so the difference is the exact integer difference of the
Julian day numbers. -/
def calc_days_elapsed (cur ref : Date3) : ℤ :=
  gcal2jd cur.1 cur.2.1 cur.2.2 - gcal2jd ref.1 ref.2.1 ref.2.2

/-- Split of a `YYYYMMDD` string into integer year, month and day, as done
by `calc_days_elapsed` (`current_date[:4]`, `[4:6]`, `[6:]` fed to `int`)
and by `pandas.to_datetime` inside `check_period`. -/
def dateTriple (s : List Char) : Option Date3 :=
  match pyInt (s.take 4), pyInt (pyCharSlice s 4 6), pyInt (s.drop 6) with
  | some y, some m, some d => some (y, m, d)
  | _, _, _ => none

/-- Gregorian leap year. -/
def isLeap (y : ℤ) : Prop := (y % 4 = 0 ∧ ¬ y % 100 = 0) ∨ y % 400 = 0

instance isLeap.decidable (y : ℤ) : Decidable (isLeap y) := by
  unfold isLeap; infer_instance

/-- Length of a month in the Gregorian calendar. -/
def daysInMonth (y m : ℤ) : ℤ :=
  if m = 2 then (if isLeap y then 29 else 28)
  else if m = 4 ∨ m = 6 ∨ m = 9 ∨ m = 11 then 30 else 31

/-- Valid calendar dates expressible in the `YYYYMMDD` header field (the
year bound keeps the floating-point sums of `jdcal` exact). -/
def validDate (t : Date3) : Prop :=
  1 ≤ t.1 ∧ t.1 ≤ 9999 ∧ 1 ≤ t.2.1 ∧ t.2.1 ≤ 12 ∧ 1 ≤ t.2.2 ∧ t.2.2 ≤ daysInMonth t.1 t.2.1

instance validDate.decidable (t : Date3) : Decidable (validDate t) := by
  unfold validDate; infer_instance

/-- Strict chronological order on date triples. -/
def dateLt (a b : Date3) : Prop :=
  a.1 < b.1 ∨ (a.1 = b.1 ∧ (a.2.1 < b.2.1 ∨ (a.2.1 = b.2.1 ∧ a.2.2 < b.2.2)))

instance dateLt.decidable (a b : Date3) : Decidable (dateLt a b) := by
  unfold dateLt; infer_instance

/-- Chronological order on date triples, the semantics of comparing
`pandas.to_datetime` values of pure dates in `check_period`. -/
def dateLe (a b : Date3) : Prop := dateLt a b ∨ a = b

instance dateLe.decidable (a b : Date3) : Decidable (dateLe a b) := by
  unfold dateLe; infer_instance

/-- The body of `Aggregator.parse_argo_header`: fixed byte offsets of the
header line give the date string `header[20:28]`, `float(header[29:36])`
latitude, `float(header[37:44])` longitude and `int(header[44:48])` layer
count.  A failing conversion raises in Python and is `none` here. -/
def parse_argo_header (header : List Char) : Option (List Char × ℚ × ℚ × ℤ) :=
  let argoDate := pyCharSlice header 20 28
  match pyFloat (pyCharSlice header 29 36), pyFloat (pyCharSlice header 37 44),
      pyInt (pyCharSlice header 44 48) with
  | some lat, some lon, some n => some (argoDate, lat, lon, n)
  | _, _, _ => none

/-- Parsing of one profile data line (`Aggregator.generate_dataset` line 99):
`map(float, re.split(' +', line.replace(chr(10), given empty).lstrip(' ')))`
unpacked into exactly three floats; any other shape raises and is `none`. -/
def parse_data_line (line : List Char) : Option (ℚ × ℚ × ℚ) :=
  let cleaned := line.filter (fun c => c ≠ '\n')
  let stripped := cleaned.dropWhile (fun c => c = ' ')
  match splitRuns stripped with
  | [a, b, c] =>
      match pyFloat a, pyFloat b, pyFloat c with
      | some pre, some sal, some tem => some (pre, sal, tem)
      | _, _, _ => none
  | _ => none

/-- One cell of a gridded field: `(value, mask)`, with `mask = true` for a
missing (masked) cell of the numpy masked array. -/
abbrev Cell : Type := ℚ × Bool

/-- One netCDF grid field file: its filename and the two-dimensional
(latitude by longitude) surface slice of each variable the source reads
(`zos` for sea-surface height, `thetao` surface layer for temperature). -/
structure GridFile where
  name : List Char
  zos : List (List Cell)
  thetao : List (List Cell)

/-- Hyperparameters consumed by `Aggregator.generate_dataset`, plus the
directory contents it globs (the grid field files). -/
structure HParams where
  latMin : ℚ
  latMax : ℚ
  lonMin : ℚ
  lonMax : ℚ
  dateMin : Date3
  dateMax : Date3
  refDate : Date3
  preMin : ℤ
  preMax : ℤ
  preInterval : ℤ
  zonalDist : ℤ
  meridionalDist : ℤ
  sshFiles : List GridFile
  sstFiles : List GridFile

/-- The body of `Aggregator.check_lat_and_lon`. -/
def check_lat_and_lon (cfg : HParams) (argoLat argoLon : ℚ) : Bool :=
  decide ((cfg.latMin ≤ argoLat ∧ argoLat ≤ cfg.latMax) ∧
    (cfg.lonMin ≤ argoLon ∧ argoLon ≤ cfg.lonMax))

/-- The body of `Aggregator.check_period`: chronological comparison of the
parsed dates (`pandas.to_datetime` on pure dates). -/
def check_period (cur dateMin dateMax : Date3) : Bool :=
  decide (dateLe dateMin cur ∧ dateLe cur dateMax)

/-- The body of `Aggregator.check_file_existance`: first file whose name
contains the substring `dm` followed by the profile date; `None`/`False`
(absence) is `none`. -/
def check_file_existance (argoDate : List Char) (files : List GridFile) : Option GridFile :=
  files.find? (fun f => decide (('d' :: 'm' :: argoDate) <:+: f.name))

/-- Evaluation function of a fitted `scipy.interpolate.Akima1DInterpolator`:
given the x data and y data of the fit, a map from evaluation point to
value.  The interpolation algorithm itself is external library code; the
claims only depend on the evaluation grid, which the source builds. -/
abbrev AkimaFn : Type := List ℚ → List ℚ → ℚ → ℚ

/-- The body of `Aggregator.interpolate_by_akima`: evaluate the fitted
interpolant at every point of `range(min_pressure, max_pressure + interval,
interval)`. -/
def interpolate_by_akima (ak : AkimaFn) (preProfile objProfile : List ℚ)
    (minPressure maxPressure interval : ℤ) : List ℚ :=
  (pyRange minPressure (maxPressure + interval) interval).map
    (fun p : ℤ => ak preProfile objProfile (p : ℚ))

/-- The body of `Aggregator.change_axis_to_index`: inclusive index bounds of
the window `axis ± width/2` at 4 cells per degree, latitude offset by 83
degrees, longitude with no offset.  The `sys.exit` on any other axis kind is
`none`. -/
def change_axis_to_index (argoAxis width : ℚ) (dataType : String) : Option (ℤ × ℤ) :=
  if dataType = "latitude" then
    some (pyIntTrunc (((argoAxis - width / 2) + 83) * 4),
      pyIntTrunc (((argoAxis + width / 2) + 83) * 4))
  else if dataType = "longitude" then
    some (pyIntTrunc ((argoAxis - width / 2) * 4),
      pyIntTrunc ((argoAxis + width / 2) * 4))
  else none

/-- Mask fill of one cell: the numpy assignment `cropped[cropped.mask] = 0.0`
writes `0.0` to every masked cell and unmasks it. -/
def fillCell (c : Cell) : Cell := if c.2 then ((0 : ℚ), false) else c

/-- The body of `Aggregator.crop_map`: round the coordinates to the 0.25
degree grid, compute the inclusive index window, slice the variable selected
by `data_type` (default branch reads `zos` like the ssh branch), and fill
masked cells with 0.0.  Propagates the impossible `sys.exit` of
`change_axis_to_index` as `none`. -/
def crop_map (cfg : HParams) (argoLat argoLon : ℚ) (mapFile : GridFile)
    (dataType : String) : Option (List (List Cell)) :=
  let lat := round_to_grid argoLat
  let lon := round_to_grid argoLon
  match change_axis_to_index lat (cfg.meridionalDist : ℚ) "latitude",
      change_axis_to_index lon (cfg.zonalDist : ℚ) "longitude" with
  | some (latMinIdx, latMaxIdx), some (lonMinIdx, lonMaxIdx) =>
      let grid := if dataType = "ssh" then mapFile.zos
        else if dataType = "sst" then mapFile.thetao else mapFile.zos
      let cropped := (pyListSlice grid latMinIdx (latMaxIdx + 1)).map
        (fun row => pyListSlice row lonMinIdx (lonMaxIdx + 1))
      some (cropped.map (List.map fillCell))
  | _, _ => none

/-- The ways `Aggregator.generate_dataset` can raise: popping from an empty
line stack (IndexError), a failing header field conversion, an unparseable
date, a malformed data line, the impossible `sys.exit` of the axis indexer,
and exhaustion of the recursion fuel (never reached from `aggRun`). -/
inductive AggErr where
  | popEmpty
  | headerParse
  | dateParse
  | dataParse
  | axisExit
  | fuelOut
deriving DecidableEq

/-- Result of a run: normal return or a propagated Python exception. -/
inductive PRes (α : Type) where
  | ok (a : α)
  | err (e : AggErr)
deriving DecidableEq

/-- Everything `generate_dataset` appends for one accepted profile. -/
structure DataRec where
  info : ℤ × ℚ × ℚ
  pre : List ℤ
  sal : List ℚ
  tem : List ℚ
  patches : List (List Cell) × List (List Cell)

/-- The five accumulator lists of `Aggregator.generate_dataset`. -/
structure AggState where
  argo_info : List (ℤ × ℚ × ℚ)
  pre_profiles : List (List ℤ)
  sal_profiles : List (List ℚ)
  tem_profiles : List (List ℚ)
  maps : List (List (List Cell) × List (List Cell))

/-- The empty accumulators at the start of `generate_dataset`. -/
def emptyAgg : AggState := ⟨[], [], [], [], []⟩

/-- Appending one accepted record to all five accumulator lists. -/
def pushRec (st : AggState) (r : DataRec) : AggState :=
  ⟨st.argo_info ++ [r.info], st.pre_profiles ++ [r.pre], st.sal_profiles ++ [r.sal],
    st.tem_profiles ++ [r.tem], st.maps ++ [r.patches]⟩

/-- Appending the outcome of one profile block: a skipped profile appends
nothing. -/
def pushOpt (st : AggState) : Option DataRec → AggState
  | none => st
  | some r => pushRec st r

/-- Python `for _ in range(n): lines.pop()`: drop `n` lines, `none` on an
empty pop (IndexError). -/
def popN : ℕ → List (List Char) → Option (List (List Char))
  | 0, ls => some ls
  | _ + 1, [] => none
  | n + 1, _ :: ls => popN n ls

/-- The data-line loop of `generate_dataset` (lines 96-102): pop and parse
`n` data lines, in file order. -/
def readProfile : ℕ → List (List Char) → PRes (List (ℚ × ℚ × ℚ) × List (List Char))
  | 0, ls => .ok ([], ls)
  | _ + 1, [] => .err .popEmpty
  | n + 1, line :: ls =>
      match parse_data_line line with
      | none => .err .dataParse
      | some row =>
          match readProfile n ls with
          | .err e => .err e
          | .ok (rows, rest) => .ok (row :: rows, rest)

/-- One iteration of the `while lines:` loop of `generate_dataset`, after
the header line has been popped: compute the elapsed days and the four
acceptance flags, then either skip `n_layer + 2` lines, or crop both
patches, pop the label line, parse `n_layer` data lines, interpolate, and
pop the separator.  Returns the optional record and the remaining lines;
the record of an accepted block is materialized only when every pop
succeeded, matching the fact that a raised IndexError destroys the whole
run before `generate_dataset` can return. -/
def processOne (cfg : HParams) (ak : AkimaFn) (header : List Char)
    (rest : List (List Char)) : PRes (Option DataRec × List (List Char)) :=
  match parse_argo_header header with
  | none => .err .headerParse
  | some (argoDate, argoLat, argoLon, nLayer) =>
      match dateTriple argoDate with
      | none => .err .dateParse
      | some ymd =>
          let nDaysElapsed := calc_days_elapsed ymd cfg.refDate
          let isInRegion := check_lat_and_lon cfg argoLat argoLon
          let withinPeriod := check_period ymd cfg.dateMin cfg.dateMax
          let skip : PRes (Option DataRec × List (List Char)) :=
            match popN (nLayer + 2).toNat rest with
            | none => .err .popEmpty
            | some rest1 => .ok (none, rest1)
          match check_file_existance argoDate cfg.sshFiles,
              check_file_existance argoDate cfg.sstFiles with
          | some sshFile, some sstFile =>
              if isInRegion && withinPeriod then
                match crop_map cfg argoLat argoLon sshFile "ssh",
                    crop_map cfg argoLat argoLon sstFile "sst" with
                | some croppedSsh, some croppedSst =>
                    match rest with
                    | [] => .err .popEmpty
                    | _labelLine :: rest1 =>
                        match readProfile nLayer.toNat rest1 with
                        | .err e => .err e
                        | .ok (rows, rest2) =>
                            let preProfile := rows.map (fun r => r.1)
                            let salProfile := rows.map (fun r => r.2.1)
                            let temProfile := rows.map (fun r => r.2.2)
                            let preInterpolated :=
                              pyRange cfg.preMin (cfg.preMax + cfg.preInterval) cfg.preInterval
                            let salInterpolated := interpolate_by_akima ak preProfile salProfile
                              cfg.preMin cfg.preMax cfg.preInterval
                            let temInterpolated := interpolate_by_akima ak preProfile temProfile
                              cfg.preMin cfg.preMax cfg.preInterval
                            match rest2 with
                            | [] => .err .popEmpty
                            | _separator :: rest3 =>
                                .ok (some ⟨(nDaysElapsed, argoLat, argoLon), preInterpolated,
                                  salInterpolated, temInterpolated, (croppedSsh, croppedSst)⟩,
                                  rest3)
                | _, _ => .err .axisExit
              else skip
          | _, _ => skip

/-- The `while lines:` loop of `generate_dataset`, fuel-indexed (each
iteration pops at least the header line, so fuel `lines.length` always
suffices; see `aggRun`). -/
def aggGo (cfg : HParams) (ak : AkimaFn) : ℕ → List (List Char) → AggState → PRes AggState
  | _, [], st => .ok st
  | 0, _ :: _, _ => .err .fuelOut
  | fuel + 1, header :: rest, st =>
      match processOne cfg ak header rest with
      | .err e => .err e
      | .ok (rec?, rest1) => aggGo cfg ak fuel rest1 (pushOpt st rec?)

/-- Processing of the line list of one profile file by `generate_dataset`. -/
def aggRun (cfg : HParams) (ak : AkimaFn) (lines : List (List Char)) (st : AggState) :
    PRes AggState :=
  aggGo cfg ak lines.length lines st

/-- Fold of the per-file loop of `generate_dataset` over the line lists of
the globbed profile files; a raised exception aborts the run. -/
def aggFiles (cfg : HParams) (ak : AkimaFn) (files : List (List (List Char)))
    (st : AggState) : PRes AggState :=
  files.foldl
    (fun acc lines =>
      match acc with
      | .err e => .err e
      | .ok st2 => aggRun cfg ak lines st2)
    (.ok st)

/-- The whole of `Aggregator.generate_dataset`, starting from empty
accumulators. -/
def generate_dataset (cfg : HParams) (ak : AkimaFn) (files : List (List (List Char))) :
    PRes AggState :=
  aggFiles cfg ak files emptyAgg

/-- One profile block of the custom text format described in the spec: a
header line, a label line, the data lines, and a separator line. -/
structure ProfBlock where
  header : List Char
  label : List Char
  dataLines : List (List Char)
  sep : List Char

/-- The lines of one block, in file order. -/
def blockLines (b : ProfBlock) : List (List Char) :=
  b.header :: b.label :: (b.dataLines ++ [b.sep])

/-- The lines of a sequence of consecutive blocks. -/
def flattenBlocks (bs : List ProfBlock) : List (List Char) :=
  bs.flatMap blockLines

/-- Date string of a block header (empty for an unparseable header). -/
def headerDate (b : ProfBlock) : List Char :=
  match parse_argo_header b.header with
  | some (d, _, _, _) => d
  | none => []

/-- Raw parsed latitude of a block header (0 for an unparseable header). -/
def headerLat (b : ProfBlock) : ℚ :=
  match parse_argo_header b.header with
  | some (_, lat, _, _) => lat
  | none => 0

/-- Raw parsed longitude of a block header (0 for an unparseable header). -/
def headerLon (b : ProfBlock) : ℚ :=
  match parse_argo_header b.header with
  | some (_, _, lon, _) => lon
  | none => 0

/-- Layer count of a block header (0 for an unparseable header). -/
def headerLayers (b : ProfBlock) : ℤ :=
  match parse_argo_header b.header with
  | some (_, _, _, n) => n
  | none => 0

/-- Date triple of a block header ((0,0,0) when unparseable). -/
def headerYmd (b : ProfBlock) : Date3 :=
  match dateTriple (headerDate b) with
  | some t => t
  | none => (0, 0, 0)

/-- Well-formed profile block: the header fields convert, the date string
parses, the layer count matches the number of data lines, and every data
line carries exactly three floats. -/
def wfBlock (b : ProfBlock) : Bool :=
  (parse_argo_header b.header).isSome &&
    (dateTriple (headerDate b)).isSome &&
    headerLayers b = (b.dataLines.length : ℤ) &&
    b.dataLines.all (fun l => (parse_data_line l).isSome)

/-- The acceptance decision of `generate_dataset` for one block: in the
selection box, in the period, and both grid field files found. -/
def acceptedB (cfg : HParams) (b : ProfBlock) : Bool :=
  check_lat_and_lon cfg (headerLat b) (headerLon b) &&
    check_period (headerYmd b) cfg.dateMin cfg.dateMax &&
    (check_file_existance (headerDate b) cfg.sshFiles).isSome &&
    (check_file_existance (headerDate b) cfg.sstFiles).isSome

/-- The parsed rows of the data lines of a well-formed block. -/
def blockRows (b : ProfBlock) : List (ℚ × ℚ × ℚ) :=
  b.dataLines.filterMap parse_data_line

/-- The record `generate_dataset` appends for an accepted well-formed
block. -/
def recordOf (cfg : HParams) (ak : AkimaFn) (b : ProfBlock) : DataRec :=
  let rows := blockRows b
  let preProfile := rows.map (fun r => r.1)
  { info := (calc_days_elapsed (headerYmd b) cfg.refDate, headerLat b, headerLon b)
    pre := pyRange cfg.preMin (cfg.preMax + cfg.preInterval) cfg.preInterval
    sal := interpolate_by_akima ak preProfile (rows.map (fun r => r.2.1))
      cfg.preMin cfg.preMax cfg.preInterval
    tem := interpolate_by_akima ak preProfile (rows.map (fun r => r.2.2))
      cfg.preMin cfg.preMax cfg.preInterval
    patches :=
      ((crop_map cfg (headerLat b) (headerLon b)
          ((check_file_existance (headerDate b) cfg.sshFiles).getD ⟨[], [], []⟩) "ssh").getD [],
        (crop_map cfg (headerLat b) (headerLon b)
          ((check_file_existance (headerDate b) cfg.sstFiles).getD ⟨[], [], []⟩) "sst").getD []) }

/-- What one block contributes to the accumulators: a record if accepted,
nothing if rejected. -/
def recOpt (cfg : HParams) (ak : AkimaFn) (b : ProfBlock) : Option DataRec :=
  if acceptedB cfg b then some (recordOf cfg ak b) else none

/-- Folding a list of per-block contributions into the accumulators. -/
def buildState (st : AggState) (rs : List DataRec) : AggState :=
  rs.foldl pushRec st

/-- Date string of a raw header line ([] when unparseable). -/
def rawDate (header : List Char) : List Char :=
  match parse_argo_header header with
  | some (d, _, _, _) => d
  | none => []

/-- Layer count of a raw header line (0 when unparseable). -/
def rawLayers (header : List Char) : ℤ :=
  match parse_argo_header header with
  | some (_, _, _, n) => n
  | none => 0

/-- Concrete well-formed header line for sanity witnesses: columns 20-27
date `20100101`, 29-35 latitude `35.50`, 37-43 longitude `140.25`, 44-47
layer count `2`. -/
def sampleHeader : List Char :=
  "AAAAAAAAAAAAAAAAAAAA20100101   35.50  140.25   2".toList

/-- Concrete well-formed profile block for sanity witnesses. -/
def sampleBlock : ProfBlock :=
  ⟨sampleHeader, "pr sa te".toList,
    [" 10.0 35.1 20.5".toList, " 20.0 35.0 18.2".toList], "**".toList⟩

/-- Concrete grid field file whose name matches date 20100101. -/
def sampleGridSsh : GridFile :=
  ⟨"dm20100101_ssh.nc".toList, [[(1, false)]], [[(1, false)]]⟩

/-- Concrete grid field file whose name matches date 20100101. -/
def sampleGridSst : GridFile :=
  ⟨"dm20100101_sst.nc".toList, [[(2, false)]], [[(2, true)]]⟩

/-- Constant interpolant evaluation used by witnesses. -/
def sampleAk : AkimaFn := fun _ _ _ => 0

/-- Concrete hyperparameters for sanity witnesses. -/
def sampleCfg : HParams :=
  { latMin := 30, latMax := 40, lonMin := 130, lonMax := 150,
    dateMin := (2009, 1, 1), dateMax := (2011, 1, 1), refDate := (2000, 1, 1),
    preMin := 10, preMax := 100, preInterval := 10,
    zonalDist := 1, meridionalDist := 1,
    sshFiles := [sampleGridSsh], sstFiles := [sampleGridSst] }

/-- The sample hyperparameters with no sea-surface-temperature files. -/
def sampleCfgNoSst : HParams := { sampleCfg with sstFiles := [] }

/-- The sample hyperparameters with zero crop half-widths. -/
def cfgZero : HParams := { sampleCfg with zonalDist := 0, meridionalDist := 0 }

/-- One-cell grid field file. -/
def gridOne : GridFile := ⟨"one.nc".toList, [[(1, false)]], [[(1, false)]]⟩

/-- The sample hyperparameters with zonal half-width 1 and meridional
half-width 0: a rounded longitude of 0 then gives the column window
[-2, 2], whose slice [-2:3] wraps in numpy. -/
def cfgWrap : HParams := { sampleCfg with meridionalDist := 0 }

/-- Grid field file with a single row of five unmasked cells. -/
def gridWide : GridFile :=
  ⟨"wide.nc".toList,
    [[(1, false), (1, false), (1, false), (1, false), (1, false)]],
    [[(1, false), (1, false), (1, false), (1, false), (1, false)]]⟩

theorem popN_append (xs rest : List (List Char)) :
    popN xs.length (xs ++ rest) = some rest := by
  induction xs with
  | nil => rfl
  | cons x xs ih => simpa [popN] using ih

theorem popN_some_length {n : ℕ} {l l2 : List (List Char)} (h : popN n l = some l2) :
    l2.length ≤ l.length := by
  induction n generalizing l l2 with
  | zero => simp [popN] at h; simp [h]
  | succ n ih =>
      cases l with
      | nil => simp [popN] at h
      | cons x l =>
          simp only [popN] at h
          exact (ih h).trans (by simp)

theorem popN_short {n : ℕ} {l : List (List Char)} (h : l.length < n) : popN n l = none := by
  induction n generalizing l with
  | zero => omega
  | succ n ih =>
      cases l with
      | nil => rfl
      | cons x l => simp only [popN]; exact ih (by simpa using h)

theorem readProfile_append {ds rest : List (List Char)}
    (h : ∀ l ∈ ds, (parse_data_line l).isSome) :
    readProfile ds.length (ds ++ rest) = .ok (ds.filterMap parse_data_line, rest) := by
  induction ds with
  | nil => rfl
  | cons d ds ih =>
      obtain ⟨row, hrow⟩ := Option.isSome_iff_exists.mp (h d (by simp))
      have ih2 := ih (fun l hl => h l (by simp [hl]))
      simp only [List.length_cons, List.cons_append, readProfile, hrow, List.append_eq,
        ih2, List.filterMap_cons]

theorem readProfile_ok_length {n : ℕ} {ls rows rest} (h : readProfile n ls = .ok (rows, rest)) :
    rest.length ≤ ls.length := by
  induction n generalizing ls rows rest with
  | zero => simp only [readProfile, PRes.ok.injEq, Prod.mk.injEq] at h; simp [h]
  | succ n ih =>
      cases ls with
      | nil => simp [readProfile] at h
      | cons l ls =>
          simp only [readProfile] at h
          cases hp : parse_data_line l with
          | none => rw [hp] at h; simp at h
          | some row =>
              rw [hp] at h
              cases hr : readProfile n ls with
              | err e => rw [hr] at h; simp at h
              | ok p =>
                  obtain ⟨rows2, rest2⟩ := p
                  rw [hr] at h
                  simp only [PRes.ok.injEq, Prod.mk.injEq] at h
                  obtain ⟨h1, h2⟩ := h
                  subst h2
                  exact (ih hr).trans (by simp)

theorem readProfile_short {n : ℕ} {ls : List (List Char)}
    (hp : ∀ l ∈ ls, (parse_data_line l).isSome) (h : ls.length < n) :
    readProfile n ls = .err .popEmpty := by
  induction ls generalizing n with
  | nil =>
      cases n with
      | zero => omega
      | succ n => rfl
  | cons l ls ih =>
      cases n with
      | zero => omega
      | succ n =>
          obtain ⟨row, hrow⟩ := Option.isSome_iff_exists.mp (hp l (by simp))
          simp only [readProfile, hrow, ih (fun x hx => hp x (by simp [hx])) (by simpa using h)]

theorem processOne_length {cfg : HParams} {ak : AkimaFn} {header : List Char}
    {rest : List (List Char)} {r : Option DataRec} {rest1 : List (List Char)}
    (h : processOne cfg ak header rest = .ok (r, rest1)) : rest1.length ≤ rest.length := by
  unfold processOne at h
  cases hh : parse_argo_header header with
  | none => rw [hh] at h; simp at h
  | some t =>
      obtain ⟨argoDate, argoLat, argoLon, nLayer⟩ := t
      rw [hh] at h
      simp only [] at h
      cases ht : dateTriple argoDate with
      | none => rw [ht] at h; simp at h
      | some ymd =>
          rw [ht] at h
          simp only [] at h
          have hskip : ∀ r2 rest2, (match popN (nLayer + 2).toNat rest with
              | none => (.err .popEmpty : PRes (Option DataRec × List (List Char)))
              | some restA => .ok (none, restA)) = .ok (r2, rest2) →
              rest2.length ≤ rest.length := by
            intro r2 rest2 hs
            cases hq : popN (nLayer + 2).toNat rest with
            | none => rw [hq] at hs; simp at hs
            | some restA =>
                rw [hq] at hs
                simp only [PRes.ok.injEq, Prod.mk.injEq] at hs
                rw [← hs.2]
                exact popN_some_length hq
          cases hssh : check_file_existance argoDate cfg.sshFiles with
          | none => rw [hssh] at h; exact hskip r rest1 h
          | some sshFile =>
              rw [hssh] at h
              cases hsst : check_file_existance argoDate cfg.sstFiles with
              | none => rw [hsst] at h; exact hskip r rest1 h
              | some sstFile =>
                  rw [hsst] at h
                  simp only [] at h
                  by_cases hacc : (check_lat_and_lon cfg argoLat argoLon &&
                      check_period ymd cfg.dateMin cfg.dateMax) = true
                  · rw [if_pos hacc] at h
                    cases hc1 : crop_map cfg argoLat argoLon sshFile "ssh" with
                    | none => rw [hc1] at h; simp at h
                    | some croppedSsh =>
                        rw [hc1] at h
                        cases hc2 : crop_map cfg argoLat argoLon sstFile "sst" with
                        | none => rw [hc2] at h; simp at h
                        | some croppedSst =>
                            rw [hc2] at h
                            cases rest with
                            | nil => simp at h
                            | cons labelLine rest1a =>
                                simp only [] at h
                                cases hr : readProfile nLayer.toNat rest1a with
                                | err e => rw [hr] at h; simp at h
                                | ok p =>
                                    obtain ⟨rows, rest2⟩ := p
                                    rw [hr] at h
                                    simp only [] at h
                                    cases rest2 with
                                    | nil => simp at h
                                    | cons sepLine rest3 =>
                                        simp only [PRes.ok.injEq, Prod.mk.injEq] at h
                                        rw [← h.2]
                                        have h2 := readProfile_ok_length hr
                                        simp only [List.length_cons] at h2 ⊢
                                        omega
                  · rw [if_neg hacc] at h
                    exact hskip r rest1 h

theorem aggGo_fuel (cfg : HParams) (ak : AkimaFn) :
    ∀ (fuel : ℕ) (ls : List (List Char)) (st : AggState), ls.length ≤ fuel →
      aggGo cfg ak fuel ls st = aggGo cfg ak ls.length ls st := by
  intro fuel
  induction fuel using Nat.strong_induction_on with
  | _ fuel ih =>
      intro ls st hle
      cases ls with
      | nil => cases fuel <;> rfl
      | cons header rest =>
          cases fuel with
          | zero => simp at hle
          | succ f =>
              simp only [List.length_cons] at hle ⊢
              simp only [aggGo]
              cases hp : processOne cfg ak header rest with
              | err e => rfl
              | ok p =>
                  obtain ⟨r, rest1⟩ := p
                  have hr1 : rest1.length ≤ rest.length := processOne_length hp
                  show aggGo cfg ak f rest1 (pushOpt st r) =
                    aggGo cfg ak rest.length rest1 (pushOpt st r)
                  rw [ih f (by omega) rest1 (pushOpt st r) (by omega),
                    ih rest.length (by omega) rest1 (pushOpt st r) (by omega)]

theorem aggRun_nil (cfg : HParams) (ak : AkimaFn) (st : AggState) :
    aggRun cfg ak [] st = .ok st := rfl

theorem aggRun_cons (cfg : HParams) (ak : AkimaFn) (header : List Char)
    (rest : List (List Char)) (st : AggState) :
    aggRun cfg ak (header :: rest) st =
      match processOne cfg ak header rest with
      | .err e => .err e
      | .ok (r, rest1) => aggRun cfg ak rest1 (pushOpt st r) := by
  unfold aggRun
  simp only [List.length_cons, aggGo]
  cases hp : processOne cfg ak header rest with
  | err e => rfl
  | ok p =>
      obtain ⟨r, rest1⟩ := p
      show aggGo cfg ak rest.length rest1 (pushOpt st r) = aggRun cfg ak rest1 (pushOpt st r)
      exact aggGo_fuel cfg ak rest.length rest1 (pushOpt st r) (processOne_length hp)

theorem crop_map_eq_getD (cfg : HParams) (lat lon : ℚ) (f : GridFile) (dt : String) :
    crop_map cfg lat lon f dt = some ((crop_map cfg lat lon f dt).getD []) := by
  unfold crop_map change_axis_to_index
  simp

theorem processOne_block (cfg : HParams) (ak : AkimaFn) (b : ProfBlock)
    (rest : List (List Char)) (hwf : wfBlock b = true) :
    processOne cfg ak b.header (b.label :: (b.dataLines ++ b.sep :: rest)) =
      .ok (recOpt cfg ak b, rest) := by
  simp only [wfBlock, Bool.and_eq_true, decide_eq_true_eq, List.all_eq_true] at hwf
  obtain ⟨⟨⟨hps, hds⟩, hlen⟩, hall⟩ := hwf
  obtain ⟨⟨argoDate, argoLat, argoLon, nLayer⟩, hp⟩ := Option.isSome_iff_exists.mp hps
  have hdate : headerDate b = argoDate := by simp [headerDate, hp]
  have hlat : headerLat b = argoLat := by simp [headerLat, hp]
  have hlon : headerLon b = argoLon := by simp [headerLon, hp]
  have hn : headerLayers b = nLayer := by simp [headerLayers, hp]
  rw [hdate] at hds
  obtain ⟨ymd, hymd⟩ := Option.isSome_iff_exists.mp hds
  have hymd2 : headerYmd b = ymd := by simp [headerYmd, hdate, hymd]
  have hlen2 : nLayer = (b.dataLines.length : ℤ) := by rw [← hn, hlen]
  have hpop : popN (nLayer + 2).toNat (b.label :: (b.dataLines ++ b.sep :: rest)) =
      some rest := by
    have hnt : (nLayer + 2).toNat = b.dataLines.length + 2 := by omega
    rw [hnt]
    have hsplit : b.label :: (b.dataLines ++ b.sep :: rest) =
        (b.label :: (b.dataLines ++ [b.sep])) ++ rest := by simp
    have hxs : b.dataLines.length + 2 = (b.label :: (b.dataLines ++ [b.sep])).length := by
      simp
    rw [hsplit, hxs, popN_append]
  unfold processOne
  rw [hp]
  simp only []
  rw [hymd]
  simp only []
  cases hssh : check_file_existance argoDate cfg.sshFiles with
  | none =>
      have hacc : acceptedB cfg b = false := by
        simp [acceptedB, hdate, hssh]
      simp only [hpop, recOpt, hacc, Bool.false_eq_true, if_false]
  | some sshFile =>
      cases hsst : check_file_existance argoDate cfg.sstFiles with
      | none =>
          have hacc : acceptedB cfg b = false := by
            simp [acceptedB, hdate, hsst]
          simp only [hpop, recOpt, hacc, Bool.false_eq_true, if_false]
      | some sstFile =>
          have haccB : acceptedB cfg b =
              (check_lat_and_lon cfg argoLat argoLon &&
                check_period ymd cfg.dateMin cfg.dateMax) := by
            simp [acceptedB, hdate, hlat, hlon, hymd2, hssh, hsst]
          simp only []
          by_cases hacc2 : (check_lat_and_lon cfg argoLat argoLon &&
              check_period ymd cfg.dateMin cfg.dateMax) = true
          · rw [if_pos hacc2]
            rw [crop_map_eq_getD cfg argoLat argoLon sshFile "ssh",
              crop_map_eq_getD cfg argoLat argoLon sstFile "sst"]
            simp only []
            have hnt2 : nLayer.toNat = b.dataLines.length := by omega
            rw [hnt2, readProfile_append hall]
            simp only [recOpt, haccB, hacc2, if_true, recordOf, blockRows, hdate, hlat,
              hlon, hymd2, hssh, hsst, Option.getD_some]
          · rw [if_neg hacc2]
            have hacc : acceptedB cfg b = false := by
              rw [haccB]; exact Bool.not_eq_true _ |>.mp hacc2
            simp only [hpop, recOpt, hacc, Bool.false_eq_true, if_false]

theorem aggRun_block (cfg : HParams) (ak : AkimaFn) (b : ProfBlock)
    (rest : List (List Char)) (st : AggState) (hwf : wfBlock b = true) :
    aggRun cfg ak (blockLines b ++ rest) st =
      aggRun cfg ak rest (pushOpt st (recOpt cfg ak b)) := by
  have hsplit : blockLines b ++ rest = b.header :: (b.label :: (b.dataLines ++ b.sep :: rest)) := by
    simp [blockLines]
  rw [hsplit, aggRun_cons, processOne_block cfg ak b rest hwf]

theorem buildState_nil (st : AggState) : buildState st [] = st := rfl

theorem buildState_cons (st : AggState) (r : DataRec) (rs : List DataRec) :
    buildState st (r :: rs) = buildState (pushRec st r) rs := rfl

theorem aggRun_flatten (cfg : HParams) (ak : AkimaFn) (bs : List ProfBlock) (st : AggState)
    (hwf : ∀ b ∈ bs, wfBlock b = true) :
    aggRun cfg ak (flattenBlocks bs) st =
      .ok (buildState st ((bs.filter (acceptedB cfg)).map (recordOf cfg ak))) := by
  induction bs generalizing st with
  | nil => simp [flattenBlocks, aggRun_nil, buildState]
  | cons b bs ih =>
      have h1 : flattenBlocks (b :: bs) = blockLines b ++ flattenBlocks bs := by
        simp [flattenBlocks]
      rw [h1, aggRun_block cfg ak b _ st (hwf b (by simp)),
        ih _ (fun x hx => hwf x (by simp [hx]))]
      by_cases hacc : acceptedB cfg b = true
      · simp [recOpt, hacc, pushOpt, List.filter_cons, buildState_cons]
      · simp only [Bool.not_eq_true] at hacc
        simp [recOpt, hacc, pushOpt, List.filter_cons]

theorem buildState_argo_info (st : AggState) (rs : List DataRec) :
    (buildState st rs).argo_info = st.argo_info ++ rs.map (fun r => r.info) := by
  induction rs generalizing st with
  | nil => simp [buildState_nil]
  | cons r rs ih => simp [buildState_cons, ih, pushRec]

theorem buildState_pre (st : AggState) (rs : List DataRec) :
    (buildState st rs).pre_profiles = st.pre_profiles ++ rs.map (fun r => r.pre) := by
  induction rs generalizing st with
  | nil => simp [buildState_nil]
  | cons r rs ih => simp [buildState_cons, ih, pushRec]

theorem buildState_sal (st : AggState) (rs : List DataRec) :
    (buildState st rs).sal_profiles = st.sal_profiles ++ rs.map (fun r => r.sal) := by
  induction rs generalizing st with
  | nil => simp [buildState_nil]
  | cons r rs ih => simp [buildState_cons, ih, pushRec]

theorem buildState_tem (st : AggState) (rs : List DataRec) :
    (buildState st rs).tem_profiles = st.tem_profiles ++ rs.map (fun r => r.tem) := by
  induction rs generalizing st with
  | nil => simp [buildState_nil]
  | cons r rs ih => simp [buildState_cons, ih, pushRec]

theorem buildState_maps (st : AggState) (rs : List DataRec) :
    (buildState st rs).maps = st.maps ++ rs.map (fun r => r.patches) := by
  induction rs generalizing st with
  | nil => simp [buildState_nil]
  | cons r rs ih => simp [buildState_cons, ih, pushRec]

theorem aggFiles_cons (cfg : HParams) (ak : AkimaFn) (lines : List (List Char))
    (files : List (List (List Char))) (st : AggState) :
    aggFiles cfg ak (lines :: files) st =
      match aggRun cfg ak lines st with
      | .err e =>
          files.foldl (fun acc ls => match acc with
            | .err e2 => .err e2
            | .ok st2 => aggRun cfg ak ls st2) (.err e)
      | .ok st2 => aggFiles cfg ak files st2 := by
  unfold aggFiles
  simp only [List.foldl_cons]
  cases aggRun cfg ak lines st <;> rfl

theorem generate_dataset_flatten (cfg : HParams) (ak : AkimaFn)
    (fileBlocks : List (List ProfBlock))
    (hwf : ∀ bs ∈ fileBlocks, ∀ b ∈ bs, wfBlock b = true) :
    generate_dataset cfg ak (fileBlocks.map flattenBlocks) =
      .ok (buildState emptyAgg
        ((fileBlocks.flatMap (fun bs => bs.filter (acceptedB cfg))).map (recordOf cfg ak))) := by
  unfold generate_dataset
  suffices h : ∀ (fbs : List (List ProfBlock)) (st : AggState),
      (∀ bs ∈ fbs, ∀ b ∈ bs, wfBlock b = true) →
      aggFiles cfg ak (fbs.map flattenBlocks) st =
        .ok (buildState st ((fbs.flatMap (fun bs => bs.filter (acceptedB cfg))).map
          (recordOf cfg ak))) by
    exact h fileBlocks emptyAgg hwf
  have hbsapp : ∀ (l1 l2 : List DataRec) (st : AggState),
      buildState st (l1 ++ l2) = buildState (buildState st l1) l2 := by
    intro l1 l2 st
    simp [buildState, List.foldl_append]
  intro fbs
  induction fbs with
  | nil => intro st h; simp [aggFiles, buildState_nil]
  | cons bs fbs ih =>
      intro st h
      rw [List.map_cons, aggFiles_cons, aggRun_flatten cfg ak bs st (h bs (by simp))]
      simp only []
      rw [ih _ (fun x hx => h x (by simp [hx]))]
      simp only [List.flatMap_cons, List.map_append, PRes.ok.injEq, hbsapp]

theorem ediv1461 (x : ℤ) : (1461 * x) / 4 = 365 * x + x / 4 := by
  have h : 1461 * x = x + 4 * (365 * x) := by ring
  rw [h, Int.add_mul_ediv_left _ _ (by norm_num : (4:ℤ) ≠ 0)]; ring

theorem ediv3of4 (q : ℤ) : (3 * q) / 4 = q + (-q) / 4 := by
  have h : 3 * q = -q + 4 * q := by ring
  rw [h, Int.add_mul_ediv_left _ _ (by norm_num : (4:ℤ) ≠ 0)]; ring

theorem ipdiv_nonneg {a : ℤ} (b : ℤ) (h : 0 ≤ a) : ipdiv a b = a / b := if_pos h

theorem daysInMonth_bounds (y m : ℤ) : 28 ≤ daysInMonth y m ∧ daysInMonth y m ≤ 31 := by
  unfold daysInMonth
  split_ifs <;> omega

theorem gcal2jd_day (y m d : ℤ) : gcal2jd y m d = gcal2jd y m 1 + (d - 1) := by
  unfold gcal2jd; ring

theorem gcal2jd_feb_step (y : ℤ) (hy : 1 ≤ y) :
    gcal2jd y 3 1 = gcal2jd y 2 1 + daysInMonth y 2 := by
  have ha3 : ipdiv (3 - 14) 12 = 0 := by decide
  have ha2 : ipdiv (2 - 14) 12 = -1 := by decide
  simp only [gcal2jd, daysInMonth, isLeap, ha3, ha2]
  have e1 : y + 4800 + 0 = y + 4800 := by ring
  have e2 : y + 4800 + -1 = y + 4799 := by ring
  have e3 : y + 4900 + 0 = y + 4900 := by ring
  have e4 : y + 4900 + -1 = y + 4899 := by ring
  rw [e1, e2, e3, e4]
  have hm3 : ipdiv (367 * (3 - 2 - 12 * (0:ℤ))) 12 = 30 := by decide
  have hm2 : ipdiv (367 * (2 - 2 - 12 * (-1:ℤ))) 12 = 367 := by decide
  rw [hm3, hm2]
  rw [ipdiv_nonneg 4 (show (0:ℤ) ≤ 1461 * (y + 4800) by omega),
    ipdiv_nonneg 4 (show (0:ℤ) ≤ 1461 * (y + 4799) by omega),
    ipdiv_nonneg 100 (show (0:ℤ) ≤ y + 4900 by omega),
    ipdiv_nonneg 100 (show (0:ℤ) ≤ y + 4899 by omega),
    ipdiv_nonneg 4 (show (0:ℤ) ≤ 3 * ((y + 4900) / 100) by omega),
    ipdiv_nonneg 4 (show (0:ℤ) ≤ 3 * ((y + 4899) / 100) by omega)]
  rw [ediv1461, ediv1461, ediv3of4, ediv3of4]
  have f1 : (y+4800)/4 - (y+4799)/4 = if y % 4 = 0 then 1 else 0 := by split <;> omega
  have f2 : (y+4900)/100 - (y+4899)/100 = if y % 100 = 0 then 1 else 0 := by
    split <;> omega
  have f4 : ((-((y+4899)/100 + 1))/4 - (-((y+4899)/100))/4) =
      (if ((y+4899)/100) % 4 = 0 then -1 else 0) := by split <;> omega
  by_cases h100 : y % 100 = 0
  · have hq : (y+4899)/100 = y/100 + 48 := by omega
    have hq' : (y+4900)/100 = y/100 + 49 := by omega
    rw [hq, hq'] at *
    split_ifs at * <;> omega
  · have hq : (y+4900)/100 = (y+4899)/100 := by omega
    rw [hq] at *
    split_ifs at * <;> omega

theorem gcal2jd_step_same_a (y m1 m2 a v1 v2 : ℤ)
    (ha1 : ipdiv (m1 - 14) 12 = a) (ha2 : ipdiv (m2 - 14) 12 = a)
    (hv1 : ipdiv (367 * (m1 - 2 - 12 * a)) 12 = v1)
    (hv2 : ipdiv (367 * (m2 - 2 - 12 * a)) 12 = v2) :
    gcal2jd y m2 1 - gcal2jd y m1 1 = v2 - v1 := by
  simp only [gcal2jd, ha1, ha2, hv1, hv2]
  omega

theorem gcal2jd_month_step (y m : ℤ) (hy : 1 ≤ y) (hm1 : 1 ≤ m) (hm2 : m ≤ 11) :
    gcal2jd y (m + 1) 1 = gcal2jd y m 1 + daysInMonth y m := by
  by_cases hfeb : m = 2
  · subst hfeb; exact gcal2jd_feb_step y hy
  · interval_cases m
    · have h := gcal2jd_step_same_a y 1 (1 + 1) (-1) 336 367
        (by decide) (by decide) (by decide) (by decide)
      have hd : daysInMonth y 1 = 31 := by norm_num [daysInMonth]
      omega
    · exact absurd rfl hfeb
    · have h := gcal2jd_step_same_a y 3 (3 + 1) 0 30 61
        (by decide) (by decide) (by decide) (by decide)
      have hd : daysInMonth y 3 = 31 := by norm_num [daysInMonth]
      omega
    · have h := gcal2jd_step_same_a y 4 (4 + 1) 0 61 91
        (by decide) (by decide) (by decide) (by decide)
      have hd : daysInMonth y 4 = 30 := by norm_num [daysInMonth]
      omega
    · have h := gcal2jd_step_same_a y 5 (5 + 1) 0 91 122
        (by decide) (by decide) (by decide) (by decide)
      have hd : daysInMonth y 5 = 31 := by norm_num [daysInMonth]
      omega
    · have h := gcal2jd_step_same_a y 6 (6 + 1) 0 122 152
        (by decide) (by decide) (by decide) (by decide)
      have hd : daysInMonth y 6 = 30 := by norm_num [daysInMonth]
      omega
    · have h := gcal2jd_step_same_a y 7 (7 + 1) 0 152 183
        (by decide) (by decide) (by decide) (by decide)
      have hd : daysInMonth y 7 = 31 := by norm_num [daysInMonth]
      omega
    · have h := gcal2jd_step_same_a y 8 (8 + 1) 0 183 214
        (by decide) (by decide) (by decide) (by decide)
      have hd : daysInMonth y 8 = 31 := by norm_num [daysInMonth]
      omega
    · have h := gcal2jd_step_same_a y 9 (9 + 1) 0 214 244
        (by decide) (by decide) (by decide) (by decide)
      have hd : daysInMonth y 9 = 30 := by norm_num [daysInMonth]
      omega
    · have h := gcal2jd_step_same_a y 10 (10 + 1) 0 244 275
        (by decide) (by decide) (by decide) (by decide)
      have hd : daysInMonth y 10 = 31 := by norm_num [daysInMonth]
      omega
    · have h := gcal2jd_step_same_a y 11 (11 + 1) 0 275 305
        (by decide) (by decide) (by decide) (by decide)
      have hd : daysInMonth y 11 = 30 := by norm_num [daysInMonth]
      omega

theorem gcal2jd_dec_step (y : ℤ) (hy : 1 ≤ y) :
    gcal2jd (y + 1) 1 1 = gcal2jd y 12 1 + 31 := by
  have ha1 : ipdiv (1 - 14) 12 = -1 := by decide
  have ha12 : ipdiv (12 - 14) 12 = 0 := by decide
  simp only [gcal2jd, ha1, ha12]
  have e1 : y + 1 + 4800 + -1 = y + 4800 := by ring
  have e2 : y + 4800 + 0 = y + 4800 := by ring
  have e3 : y + 1 + 4900 + -1 = y + 4900 := by ring
  have e4 : y + 4900 + 0 = y + 4900 := by ring
  rw [e1, e2, e3, e4]
  have hm1 : ipdiv (367 * (1 - 2 - 12 * (-1:ℤ))) 12 = 336 := by decide
  have hm12 : ipdiv (367 * (12 - 2 - 12 * (0:ℤ))) 12 = 305 := by decide
  rw [hm1, hm12]
  omega

theorem gcal2jd_month_mono (y : ℤ) (hy : 1 ≤ y) :
    ∀ (k : ℕ) (m : ℤ), 1 ≤ m → m + k ≤ 12 → gcal2jd y m 1 ≤ gcal2jd y (m + k) 1 := by
  intro k
  induction k with
  | zero => intro m _ _; simp
  | succ k ih =>
      intro m h1 h2
      have hc2 : m + ((k + 1 : ℕ) : ℤ) = m + (k : ℤ) + 1 := by push_cast; ring
      have hc3 : m + ((k : ℕ) : ℤ) ≤ 11 := by
        rw [hc2] at h2; omega
      have h3 : gcal2jd y m 1 ≤ gcal2jd y (m + k) 1 := ih m h1 (by omega)
      have h4 : gcal2jd y (m + k + 1) 1 = gcal2jd y (m + k) 1 + daysInMonth y (m + k) :=
        gcal2jd_month_step y (m + k) hy (by omega) (by omega)
      have h5 := (daysInMonth_bounds y (m + k)).1
      rw [hc2]
      omega

theorem gcal2jd_year_mono (y : ℤ) (hy : 1 ≤ y) :
    ∀ k : ℕ, gcal2jd y 1 1 ≤ gcal2jd (y + k) 1 1 := by
  intro k
  induction k with
  | zero => simp
  | succ k ih =>
      have hy2 : 1 ≤ y + (k : ℤ) := by omega
      have h1 : gcal2jd (y + k) 1 1 ≤ gcal2jd (y + k) 12 1 := by
        have h := gcal2jd_month_mono (y + k) hy2 11 1 (by omega) (by norm_num)
        norm_num at h
        exact h
      have h2 := gcal2jd_dec_step (y + k) hy2
      have hc : y + ((k + 1 : ℕ) : ℤ) = y + (k : ℤ) + 1 := by push_cast; ring
      rw [hc]
      omega

theorem gcal2jd_lt_of_dateLt {d1 d2 : Date3} (h1 : validDate d1) (h2 : validDate d2)
    (hlt : dateLt d1 d2) : gcal2jd d1.1 d1.2.1 d1.2.2 < gcal2jd d2.1 d2.2.1 d2.2.2 := by
  obtain ⟨y1, m1, dd1⟩ := d1
  obtain ⟨y2, m2, dd2⟩ := d2
  simp only [validDate] at h1 h2
  simp only [dateLt] at hlt
  obtain ⟨hy1a, hy1b, hm1a, hm1b, hd1a, hd1b⟩ := h1
  obtain ⟨hy2a, hy2b, hm2a, hm2b, hd2a, hd2b⟩ := h2
  simp only []
  have hub : ∀ (y m dd : ℤ), 1 ≤ y → 1 ≤ m → m ≤ 12 → 1 ≤ dd → dd ≤ daysInMonth y m →
      gcal2jd y m dd < gcal2jd (y + 1) 1 1 := by
    intro y m dd hy hm1 hm12 hdd1 hdd2
    have hday := gcal2jd_day y m dd
    have hmono := gcal2jd_month_mono y hy (12 - m).toNat m hm1 (by omega)
    have hc : m + (((12 - m).toNat : ℕ) : ℤ) = 12 := by omega
    rw [hc] at hmono
    have hdec := gcal2jd_dec_step y hy
    have hdm := (daysInMonth_bounds y m).2
    omega
  have hlb : ∀ (y m dd : ℤ), 1 ≤ y → 1 ≤ m → m ≤ 12 → 1 ≤ dd →
      gcal2jd y 1 1 ≤ gcal2jd y m dd := by
    intro y m dd hy hm1 hm12 hdd
    have hmono := gcal2jd_month_mono y hy (m - 1).toNat 1 (by omega) (by omega)
    have hc : (1 : ℤ) + (((m - 1).toNat : ℕ) : ℤ) = m := by omega
    rw [hc] at hmono
    have hday := gcal2jd_day y m dd
    omega
  have hmchain : ∀ (y ma mb dda ddb : ℤ), 1 ≤ y → 1 ≤ ma → ma < mb → mb ≤ 12 →
      1 ≤ dda → dda ≤ daysInMonth y ma → 1 ≤ ddb →
      gcal2jd y ma dda < gcal2jd y mb ddb := by
    intro y ma mb dda ddb hy ha hab hb hda hdab hdb
    have hstep := gcal2jd_month_step y ma hy ha (by omega)
    have hmono := gcal2jd_month_mono y hy (mb - (ma + 1)).toNat (ma + 1) (by omega) (by omega)
    have hc : (ma + 1) + (((mb - (ma + 1)).toNat : ℕ) : ℤ) = mb := by omega
    rw [hc] at hmono
    have hday1 := gcal2jd_day y ma dda
    have hday2 := gcal2jd_day y mb ddb
    omega
  rcases hlt with hy | ⟨hyeq, hrest⟩
  · have hstep1 : gcal2jd y1 m1 dd1 < gcal2jd (y1 + 1) 1 1 :=
      hub y1 m1 dd1 hy1a hm1a hm1b hd1a hd1b
    have hymono := gcal2jd_year_mono (y1 + 1) (by omega) (y2 - (y1 + 1)).toNat
    have hc : (y1 + 1) + (((y2 - (y1 + 1)).toNat : ℕ) : ℤ) = y2 := by omega
    rw [hc] at hymono
    have hlow := hlb y2 m2 dd2 (by omega) hm2a hm2b hd2a
    omega
  · rcases hrest with hm | ⟨hmeq, hd⟩
    · subst hyeq
      exact hmchain y1 m1 m2 dd1 dd2 hy1a hm1a hm hm2b hd1a hd1b hd2a
    · subst hyeq; subst hmeq
      have hday1 := gcal2jd_day y1 m1 dd1
      have hday2 := gcal2jd_day y1 m1 dd2
      omega

/-- C1: Parser line-consumption invariant: for every well-formed profile
block, whether accepted or rejected by the filters, the
`generate_dataset` loop consumes exactly the block's header line, label
line, `layer_count` data lines and separator line before the next header is
read (first conjunct: processing `blockLines b ++ rest` continues exactly
at `rest`); consequently parsing a file of N well-formed blocks of which M
are rejected succeeds, yields exactly N - M output records, and leaves the
line buffer empty at end of file (second conjunct: the run ends in `.ok`,
which the loop only produces once the line list is exhausted). -/
theorem claim_C1 :
    (∀ (cfg : HParams) (ak : AkimaFn) (b : ProfBlock) (rest : List (List Char))
      (st : AggState), wfBlock b = true →
      aggRun cfg ak (blockLines b ++ rest) st =
        aggRun cfg ak rest (pushOpt st (recOpt cfg ak b))) ∧
    (∀ (cfg : HParams) (ak : AkimaFn) (bs : List ProfBlock),
      (∀ b ∈ bs, wfBlock b = true) →
      ∃ final, aggRun cfg ak (flattenBlocks bs) emptyAgg = .ok final ∧
        final.argo_info.length =
          bs.length - (bs.filter (fun b => !(acceptedB cfg b))).length) := by
  constructor
  · intro cfg ak b rest st hwf
    exact aggRun_block cfg ak b rest st hwf
  · intro cfg ak bs hwf
    refine ⟨_, aggRun_flatten cfg ak bs emptyAgg hwf, ?_⟩
    rw [buildState_argo_info]
    simp only [emptyAgg, List.nil_append, List.length_map]
    have hsum : ∀ (l : List ProfBlock),
        (l.filter (acceptedB cfg)).length +
          (l.filter (fun b => !(acceptedB cfg b))).length = l.length := by
      intro l
      induction l with
      | nil => rfl
      | cons x l ih =>
          by_cases hx : acceptedB cfg x = true <;>
            simp [List.filter_cons, hx, Nat.succ_eq_add_one] <;> omega
    have := hsum bs
    omega

/-- Sanity witness for C1 at a concrete configuration and block. -/
theorem claim_C1_witness :
    wfBlock sampleBlock = true ∧
    aggRun sampleCfg sampleAk (blockLines sampleBlock ++ []) emptyAgg =
      aggRun sampleCfg sampleAk []
        (pushOpt emptyAgg (recOpt sampleCfg sampleAk sampleBlock)) ∧
    (∃ final, aggRun sampleCfg sampleAk (flattenBlocks [sampleBlock]) emptyAgg = .ok final ∧
      final.argo_info.length =
        [sampleBlock].length -
          ([sampleBlock].filter (fun b => !(acceptedB sampleCfg b))).length) :=
  ⟨by decide, claim_C1.1 sampleCfg sampleAk sampleBlock [] emptyAgg (by decide),
    claim_C1.2 sampleCfg sampleAk [sampleBlock] (by decide)⟩

/-- C2: Output alignment: after `generate_dataset` finishes on well-formed
input, the five parallel output sequences (header info, pressure, salinity
and temperature profiles, and paired ssh/sst patches) all have equal
length, equal to the number of accepted profiles, and index i in every
sequence is the data of the same source profile (each list is the map of a
per-block record function over the one list of accepted blocks, which also
fixes encounter order). -/
theorem claim_C2 : ∀ (cfg : HParams) (ak : AkimaFn) (fileBlocks : List (List ProfBlock)),
    (∀ bs ∈ fileBlocks, ∀ b ∈ bs, wfBlock b = true) →
    ∃ final, generate_dataset cfg ak (fileBlocks.map flattenBlocks) = .ok final ∧
      (let acc := fileBlocks.flatMap (fun bs => bs.filter (acceptedB cfg))
      final.argo_info = acc.map (fun b => (recordOf cfg ak b).info) ∧
      final.pre_profiles = acc.map (fun b => (recordOf cfg ak b).pre) ∧
      final.sal_profiles = acc.map (fun b => (recordOf cfg ak b).sal) ∧
      final.tem_profiles = acc.map (fun b => (recordOf cfg ak b).tem) ∧
      final.maps = acc.map (fun b => (recordOf cfg ak b).patches) ∧
      final.argo_info.length = acc.length ∧
      final.pre_profiles.length = acc.length ∧
      final.sal_profiles.length = acc.length ∧
      final.tem_profiles.length = acc.length ∧
      final.maps.length = acc.length) := by
  intro cfg ak fileBlocks hwf
  refine ⟨_, generate_dataset_flatten cfg ak fileBlocks hwf, ?_⟩
  simp only [buildState_argo_info, buildState_pre, buildState_sal, buildState_tem,
    buildState_maps, emptyAgg, List.nil_append, List.map_map, List.length_map,
    Function.comp_def]
  simp

/-- Sanity witness for C2 at a concrete configuration and input. -/
theorem claim_C2_witness :
    (∀ bs ∈ [[sampleBlock]], ∀ b ∈ bs, wfBlock b = true) ∧
    ∃ final, generate_dataset sampleCfg sampleAk ([[sampleBlock]].map flattenBlocks) =
        .ok final ∧
      (let acc := [[sampleBlock]].flatMap (fun bs => bs.filter (acceptedB sampleCfg))
      final.argo_info = acc.map (fun b => (recordOf sampleCfg sampleAk b).info) ∧
      final.pre_profiles = acc.map (fun b => (recordOf sampleCfg sampleAk b).pre) ∧
      final.sal_profiles = acc.map (fun b => (recordOf sampleCfg sampleAk b).sal) ∧
      final.tem_profiles = acc.map (fun b => (recordOf sampleCfg sampleAk b).tem) ∧
      final.maps = acc.map (fun b => (recordOf sampleCfg sampleAk b).patches) ∧
      final.argo_info.length = acc.length ∧
      final.pre_profiles.length = acc.length ∧
      final.sal_profiles.length = acc.length ∧
      final.tem_profiles.length = acc.length ∧
      final.maps.length = acc.length) :=
  ⟨by decide, claim_C2 sampleCfg sampleAk [[sampleBlock]] (by decide)⟩

/-- C9: Frame effect of the rounding step: the latitude and longitude
stored in an accepted record's header info are the raw values parsed from
the profile header, and the patches are produced by `crop_map` applied to
those same raw values (the quarter-degree rounding happens only to the
local copies inside `crop_map`, whose definition rounds before indexing,
and modifies no recorded field). -/
theorem claim_C9 : ∀ (cfg : HParams) (ak : AkimaFn) (fileBlocks : List (List ProfBlock)),
    (∀ bs ∈ fileBlocks, ∀ b ∈ bs, wfBlock b = true) →
    ∃ final, generate_dataset cfg ak (fileBlocks.map flattenBlocks) = .ok final ∧
      (let acc := fileBlocks.flatMap (fun bs => bs.filter (acceptedB cfg))
      final.argo_info = acc.map (fun b =>
        (calc_days_elapsed (headerYmd b) cfg.refDate, headerLat b, headerLon b)) ∧
      final.maps = acc.map (fun b =>
        ((crop_map cfg (headerLat b) (headerLon b)
            ((check_file_existance (headerDate b) cfg.sshFiles).getD ⟨[], [], []⟩)
            "ssh").getD [],
         (crop_map cfg (headerLat b) (headerLon b)
            ((check_file_existance (headerDate b) cfg.sstFiles).getD ⟨[], [], []⟩)
            "sst").getD []))) := by
  intro cfg ak fileBlocks hwf
  refine ⟨_, generate_dataset_flatten cfg ak fileBlocks hwf, ?_⟩
  simp only [buildState_argo_info, buildState_maps, emptyAgg, List.nil_append,
    List.map_map, Function.comp_def, recordOf]
  simp

/-- Sanity witness for C9 at a concrete configuration and input. -/
theorem claim_C9_witness :
    (∀ bs ∈ [[sampleBlock]], ∀ b ∈ bs, wfBlock b = true) ∧
    ∃ final, generate_dataset sampleCfg sampleAk ([[sampleBlock]].map flattenBlocks) =
        .ok final ∧
      (let acc := [[sampleBlock]].flatMap (fun bs => bs.filter (acceptedB sampleCfg))
      final.argo_info = acc.map (fun b =>
        (calc_days_elapsed (headerYmd b) sampleCfg.refDate, headerLat b, headerLon b)) ∧
      final.maps = acc.map (fun b =>
        ((crop_map sampleCfg (headerLat b) (headerLon b)
            ((check_file_existance (headerDate b) sampleCfg.sshFiles).getD ⟨[], [], []⟩)
            "ssh").getD [],
         (crop_map sampleCfg (headerLat b) (headerLon b)
            ((check_file_existance (headerDate b) sampleCfg.sstFiles).getD ⟨[], [], []⟩)
            "sst").getD []))) :=
  ⟨by decide, claim_C9 sampleCfg sampleAk [[sampleBlock]] (by decide)⟩

/-- C8: File matching and skip semantics: a candidate grid field file
matches a profile's date iff the substring `dm` followed by that date
occurs in the file's name (first conjunct: no match returns the absence
sentinel `none` exactly when no candidate name contains the substring, and
a returned file does contain it); when either lookup returns the sentinel,
the assembler skips the profile, appending nothing to the outputs, and
continues with the next profile (second conjunct). -/
theorem claim_C8 :
    (∀ (argoDate : List Char) (files : List GridFile),
      (check_file_existance argoDate files = none ↔
        ∀ f ∈ files, ¬ (('d' :: 'm' :: argoDate) <:+: f.name)) ∧
      (∀ f, check_file_existance argoDate files = some f →
        (('d' :: 'm' :: argoDate) <:+: f.name) ∧ f ∈ files)) ∧
    (∀ (cfg : HParams) (ak : AkimaFn) (b : ProfBlock) (rest : List (List Char))
      (st : AggState), wfBlock b = true →
      (check_file_existance (headerDate b) cfg.sshFiles = none ∨
        check_file_existance (headerDate b) cfg.sstFiles = none) →
      aggRun cfg ak (blockLines b ++ rest) st = aggRun cfg ak rest st) := by
  constructor
  · intro argoDate files
    constructor
    · unfold check_file_existance
      rw [List.find?_eq_none]
      constructor
      · intro h f hf
        have := h f hf
        simpa using this
      · intro h f hf
        simpa using h f hf
    · intro f hf
      unfold check_file_existance at hf
      have h1 := List.find?_some hf
      have h2 := List.mem_of_find?_eq_some hf
      simp only [decide_eq_true_eq] at h1
      exact ⟨h1, h2⟩
  · intro cfg ak b rest st hwf hnone
    have hacc : acceptedB cfg b = false := by
      rcases hnone with h | h <;> simp [acceptedB, h]
    have := aggRun_block cfg ak b rest st hwf
    rw [this]
    simp [recOpt, hacc, pushOpt]

/-- Sanity witness for C8: the sample block is skipped when the
sea-surface-temperature file list is empty. -/
theorem claim_C8_witness :
    wfBlock sampleBlock = true ∧
    aggRun sampleCfgNoSst sampleAk (blockLines sampleBlock ++ []) emptyAgg =
      aggRun sampleCfgNoSst sampleAk [] emptyAgg :=
  ⟨by decide,
    claim_C8.2 sampleCfgNoSst sampleAk sampleBlock [] emptyAgg (by decide) (Or.inr rfl)⟩

/-- C10: Safety on truncated input: the parser assumes every header is
followed by at least `layer_count + 2` lines; when a file ends with
well-formed blocks followed by a header whose block is cut short (fewer
than `layer_count + 2` remaining lines, those present being a label line
and valid data lines), `generate_dataset` raises the pop-from-empty-list
IndexError instead of emitting a partial record, so the run produces no
output at all and no record ever comes from an incomplete block. -/
theorem claim_C10 : ∀ (cfg : HParams) (ak : AkimaFn) (bs : List ProfBlock)
    (hdr : List Char) (tl : List (List Char)),
    (∀ b ∈ bs, wfBlock b = true) →
    (parse_argo_header hdr).isSome = true →
    (dateTriple (rawDate hdr)).isSome = true →
    0 ≤ rawLayers hdr →
    (tl.length : ℤ) < rawLayers hdr + 2 →
    (∀ l ∈ tl.drop 1, (parse_data_line l).isSome = true) →
    aggRun cfg ak (flattenBlocks bs ++ hdr :: tl) emptyAgg = .err .popEmpty := by
  intro cfg ak bs hdr tl hwf hh hd hn htl hparse
  have hkey : ∀ st : AggState, aggRun cfg ak (hdr :: tl) st = .err .popEmpty := by
    intro st
    rw [aggRun_cons]
    suffices hpo : processOne cfg ak hdr tl = .err .popEmpty by rw [hpo]
    obtain ⟨⟨argoDate, lat, lon, n⟩, hp⟩ := Option.isSome_iff_exists.mp hh
    have hdate : rawDate hdr = argoDate := by simp [rawDate, hp]
    have hlay : rawLayers hdr = n := by simp [rawLayers, hp]
    rw [hdate] at hd
    obtain ⟨ymd, hymd⟩ := Option.isSome_iff_exists.mp hd
    rw [hlay] at hn htl
    unfold processOne
    rw [hp]
    simp only []
    rw [hymd]
    simp only []
    have hskip : (match popN (n + 2).toNat tl with
        | none => (.err .popEmpty : PRes (Option DataRec × List (List Char)))
        | some restA => .ok (none, restA)) = .err .popEmpty := by
      rw [popN_short (by omega)]
    cases hssh : check_file_existance argoDate cfg.sshFiles with
    | none => exact hskip
    | some sshF =>
        cases hsst : check_file_existance argoDate cfg.sstFiles with
        | none => exact hskip
        | some sstF =>
            simp only []
            by_cases hacc : (check_lat_and_lon cfg lat lon &&
                check_period ymd cfg.dateMin cfg.dateMax) = true
            · rw [if_pos hacc]
              rw [crop_map_eq_getD cfg lat lon sshF "ssh",
                crop_map_eq_getD cfg lat lon sstF "sst"]
              simp only []
              cases tl with
              | nil => rfl
              | cons lab ds =>
                  simp only []
                  have hds : ∀ l ∈ ds, (parse_data_line l).isSome = true := by
                    intro l hl
                    exact hparse l (by simpa using hl)
                  by_cases hlen : ds.length < n.toNat
                  · rw [readProfile_short hds hlen]
                  · have hleneq : n.toNat = ds.length := by
                      simp only [List.length_cons] at htl
                      omega
                    have happ := @readProfile_append ds [] hds
                    rw [List.append_nil] at happ
                    rw [hleneq, happ]
            · rw [if_neg hacc]
              exact hskip
  have hmain : ∀ (bs2 : List ProfBlock) (st : AggState),
      (∀ b ∈ bs2, wfBlock b = true) →
      aggRun cfg ak (flattenBlocks bs2 ++ hdr :: tl) st = .err .popEmpty := by
    intro bs2
    induction bs2 with
    | nil => intro st _; simpa [flattenBlocks] using hkey st
    | cons b bs2 ih =>
        intro st h
        have hb : flattenBlocks (b :: bs2) ++ hdr :: tl =
            blockLines b ++ (flattenBlocks bs2 ++ hdr :: tl) := by
          simp [flattenBlocks]
        rw [hb, aggRun_block cfg ak b _ st (h b (by simp))]
        exact ih _ (fun x hx => h x (by simp [hx]))
  exact hmain bs emptyAgg hwf

/-- Sanity witness for C10: the sample header followed by only a label line
is a truncated block and raises the pop-from-empty-list error. -/
theorem claim_C10_witness :
    (parse_argo_header sampleHeader).isSome = true ∧
    ((["pr sa te".toList] : List (List Char)).length : ℤ) < rawLayers sampleHeader + 2 ∧
    aggRun sampleCfg sampleAk (flattenBlocks [] ++ sampleHeader :: ["pr sa te".toList])
      emptyAgg = .err .popEmpty :=
  ⟨by decide, by decide,
    claim_C10 sampleCfg sampleAk [] sampleHeader ["pr sa te".toList]
      (by decide) (by decide) (by decide) (by decide) (by decide) (by decide)⟩

theorem roundHalfUp_pos_eq {x : ℚ} {n : ℤ} (h0 : 0 ≤ x)
    (h1 : (n:ℚ) - 1/2 ≤ x) (h2 : x < (n:ℚ) + 1/2) : roundHalfUp x = n := by
  unfold roundHalfUp
  rw [if_pos h0, Int.floor_eq_iff]
  constructor
  · push_cast; linarith
  · push_cast; linarith

theorem roundHalfUp_neg_eq {x : ℚ} {n : ℤ} (h0 : x < 0)
    (h1 : (n:ℚ) - 1/2 < x) (h2 : x ≤ (n:ℚ) + 1/2) : roundHalfUp x = n := by
  unfold roundHalfUp
  rw [if_neg (not_le.mpr h0)]
  have hfl : ⌊-x + 1/2⌋ = -n := by
    rw [Int.floor_eq_iff]
    constructor
    · push_cast; linarith
    · push_cast; linarith
  rw [hfl]; ring

/-- C3 counterexample: the claim says every x in
[n*0.25 - 0.125, n*0.25 + 0.125) maps to n*0.25 for every integer n, but at
n = 0 the point x = -0.125 lies in that interval and the code rounds it
half away from zero to -0.25, not 0. -/
theorem claim_C3_counterexample :
    ¬ (∀ (n : ℤ) (x : ℚ), (n : ℚ) * (1/4) - 1/8 ≤ x → x < (n : ℚ) * (1/4) + 1/8 →
      round_to_grid x = (n : ℚ) * (1/4)) := by
  intro h
  have h0 := h 0 (-(1/8)) (by norm_num) (by norm_num)
  have hval : round_to_grid (-(1/8)) = -(1/4) := by
    have harg : (-(1/8) : ℚ) * 4 = -(1/2) := by norm_num
    unfold round_to_grid roundHalfUp
    rw [harg, if_neg (by norm_num)]
    norm_num
  rw [hval] at h0
  norm_num at h0

/-- C3 (amended): the coordinate rounding multiplies by 4, rounds to the
nearest integer with ties away from zero, and divides by 4; consequently
for n at least 1 every x in [n*0.25 - 0.125, n*0.25 + 0.125) maps to
n*0.25, for n at most -1 every x in (n*0.25 - 0.125, n*0.25 + 0.125] maps
to n*0.25, for n = 0 every x in (-0.125, 0.125) maps to 0, and a boundary
point at distance exactly 0.125 rounds away from zero: up to (n+1)*0.25
when n is nonnegative, and down to (n-1)*0.25 when n is negative (not
always up as the original sentence says). -/
theorem claim_C3 : ∀ (n : ℤ) (x : ℚ),
    (1 ≤ n → (n:ℚ)/4 - 1/8 ≤ x → x < (n:ℚ)/4 + 1/8 → round_to_grid x = (n:ℚ)/4) ∧
    (n ≤ -1 → (n:ℚ)/4 - 1/8 < x → x ≤ (n:ℚ)/4 + 1/8 → round_to_grid x = (n:ℚ)/4) ∧
    (n = 0 → -(1/8:ℚ) < x → x < 1/8 → round_to_grid x = 0) ∧
    (0 ≤ n → round_to_grid ((n:ℚ)/4 + 1/8) = ((n:ℚ) + 1)/4) ∧
    (n < 0 → round_to_grid ((n:ℚ)/4 - 1/8) = ((n:ℚ) - 1)/4) := by
  intro n x
  refine ⟨?_, ?_, ?_, ?_, ?_⟩
  · intro hn h1 h2
    have hn' : (1:ℚ) ≤ (n:ℚ) := by exact_mod_cast hn
    have h0 : 0 ≤ x * 4 := by linarith
    have heq : roundHalfUp (x * 4) = n :=
      roundHalfUp_pos_eq h0 (by linarith) (by linarith)
    unfold round_to_grid
    rw [heq]
  · intro hn h1 h2
    have hn' : (n:ℚ) ≤ -1 := by exact_mod_cast hn
    have h0 : x * 4 < 0 := by linarith
    have heq : roundHalfUp (x * 4) = n :=
      roundHalfUp_neg_eq h0 (by linarith) (by linarith)
    unfold round_to_grid
    rw [heq]
  · intro hn h1 h2
    subst hn
    by_cases h0 : 0 ≤ x * 4
    · have heq : roundHalfUp (x * 4) = 0 :=
        roundHalfUp_pos_eq h0 (by push_cast; linarith) (by push_cast; linarith)
      unfold round_to_grid
      rw [heq]
      norm_num
    · have heq : roundHalfUp (x * 4) = 0 :=
        roundHalfUp_neg_eq (by linarith) (by push_cast; linarith) (by push_cast; linarith)
      unfold round_to_grid
      rw [heq]
      norm_num
  · intro hn
    have hn' : (0:ℚ) ≤ (n:ℚ) := by exact_mod_cast hn
    have harg : ((n:ℚ)/4 + 1/8) * 4 = (n:ℚ) + 1/2 := by ring
    have heq : roundHalfUp ((n:ℚ) + 1/2) = n + 1 := by
      apply roundHalfUp_pos_eq (by linarith)
      · push_cast; linarith
      · push_cast; linarith
    unfold round_to_grid
    rw [harg, heq]
    push_cast; ring
  · intro hn
    have hn' : (n:ℚ) ≤ -1 := by exact_mod_cast (show n ≤ -1 by omega)
    have harg : ((n:ℚ)/4 - 1/8) * 4 = (n:ℚ) - 1/2 := by ring
    have heq : roundHalfUp ((n:ℚ) - 1/2) = n - 1 := by
      apply roundHalfUp_neg_eq (by linarith)
      · push_cast; linarith
      · push_cast; linarith
    unfold round_to_grid
    rw [harg, heq]
    push_cast; ring

/-- Sanity witness for the amended C3 at n = 1, x = 0.25. -/
theorem claim_C3_witness :
    (1:ℤ) ≤ 1 ∧ round_to_grid ((1:ℚ)/4) = (((1:ℤ)):ℚ)/4 :=
  ⟨le_refl 1, (claim_C3 1 (1/4)).1 (le_refl 1) (by norm_num) (by norm_num)⟩

/-- C7: Every cropped patch returned by `crop_map` has all missing/masked
cells replaced with 0.0 and carries no mask after cropping: every cell of
the returned patch is unmasked (first conjunct), a masked cell is rewritten
to value 0.0 unmasked (second conjunct), and an unmasked cell is returned
unchanged (third conjunct). -/
theorem claim_C7 :
    (∀ (cfg : HParams) (lat lon : ℚ) (f : GridFile) (dt : String)
      (patch : List (List Cell)),
      crop_map cfg lat lon f dt = some patch →
      ∀ row ∈ patch, ∀ c ∈ row, c.2 = false) ∧
    (∀ c : Cell, c.2 = true → fillCell c = ((0:ℚ), false)) ∧
    (∀ c : Cell, c.2 = false → fillCell c = c) := by
  have hsnd : ∀ c : Cell, (fillCell c).2 = false := by
    intro c
    unfold fillCell
    by_cases h : c.2 = true
    · rw [if_pos h]
    · rw [if_neg h]
      simpa using h
  refine ⟨?_, ?_, ?_⟩
  · intro cfg lat lon f dt patch hcrop row hrow c hc
    unfold crop_map at hcrop
    simp only [] at hcrop
    cases hA : change_axis_to_index (round_to_grid lat) (cfg.meridionalDist : ℚ)
        "latitude" with
    | none => rw [hA] at hcrop; simp at hcrop
    | some pA =>
        obtain ⟨a1, a2⟩ := pA
        rw [hA] at hcrop
        cases hB : change_axis_to_index (round_to_grid lon) (cfg.zonalDist : ℚ)
            "longitude" with
        | none => rw [hB] at hcrop; simp at hcrop
        | some pB =>
            obtain ⟨b1, b2⟩ := pB
            rw [hB] at hcrop
            simp only [Option.some.injEq] at hcrop
            rw [← hcrop] at hrow
            simp only [List.mem_map] at hrow
            obtain ⟨row1, _, hrow2⟩ := hrow
            rw [← hrow2] at hc
            simp only [List.mem_map] at hc
            obtain ⟨c0, _, hc2⟩ := hc
            rw [← hc2]
            exact hsnd c0
  · intro c h
    unfold fillCell
    rw [if_pos h]
  · intro c h
    unfold fillCell
    rw [if_neg (by simp [h])]

/-- Sanity witness for C7 on a concrete masked cell. -/
theorem claim_C7_witness :
    (((5:ℚ), true) : Cell).2 = true ∧ fillCell ((5:ℚ), true) = ((0:ℚ), false) :=
  ⟨rfl, claim_C7.2.1 ((5:ℚ), true) rfl⟩

/-- C5: For every accepted record the interpolated pressure, salinity and
temperature sequences each have length (max_pressure - min_pressure) /
pressure_interval + 1, and the pressure grid is the uniform sequence
min, min + interval, ..., max inclusive of max, identical for all records
under one configuration (the grid depends only on the three configured
integers, never on the profile). -/
theorem claim_C5 : ∀ (mn mx iv : ℤ) (ak : AkimaFn) (preP objP : List ℚ),
    0 < iv → mn ≤ mx → iv ∣ (mx - mn) →
    (pyRange mn (mx + iv) iv).length = ((mx - mn) / iv).toNat + 1 ∧
    pyRange mn (mx + iv) iv =
      List.map (fun i : ℕ => mn + iv * (i : ℤ)) (List.range (((mx - mn) / iv).toNat + 1)) ∧
    (pyRange mn (mx + iv) iv).getLast? = some mx ∧
    (interpolate_by_akima ak preP objP mn mx iv).length =
      ((mx - mn) / iv).toNat + 1 := by
  intro mn mx iv ak preP objP hiv hle hdvd
  obtain ⟨t, ht⟩ := hdvd
  have ht0 : 0 ≤ t := by nlinarith
  have hdiv : (mx - mn) / iv = t := by
    rw [ht]
    exact Int.mul_ediv_cancel_left t (by omega)
  have hcount : (mx + iv - mn + iv - 1) / iv = t + 1 := by
    have h1 : mx + iv - mn + iv - 1 = (iv - 1) + iv * (t + 1) := by linear_combination ht
    rw [h1, Int.add_mul_ediv_left _ _ (show iv ≠ 0 by omega),
      Int.ediv_eq_zero_of_lt (by omega) (by omega), zero_add]
  refine ⟨?_, ?_, ?_, ?_⟩
  · unfold pyRange
    rw [if_pos hiv, List.length_map, List.length_range, hcount, hdiv]
    omega
  · unfold pyRange
    rw [if_pos hiv, hcount, hdiv, show (t + 1).toNat = t.toNat + 1 by omega]
  · unfold pyRange
    rw [if_pos hiv, hcount, show (t + 1).toNat = t.toNat + 1 by omega]
    rw [List.range_succ, List.map_append, List.map_cons, List.map_nil,
      List.getLast?_concat]
    congr 1
    have hc : ((t.toNat : ℕ) : ℤ) = t := by omega
    rw [hc]
    linear_combination ht.symm
  · unfold interpolate_by_akima pyRange
    rw [if_pos hiv, List.length_map, List.length_map, List.length_range, hcount, hdiv]
    omega

/-- Sanity witness for C5 on the sample interpolation grid 10..100 step 10. -/
theorem claim_C5_witness :
    (0:ℤ) < 10 ∧ (pyRange 10 (100 + 10) 10).length = (((100:ℤ) - 10) / 10).toNat + 1 :=
  ⟨by decide,
    (claim_C5 10 100 10 sampleAk [] [] (by decide) (by decide) (by norm_num)).1⟩

theorem pyIntTrunc_intCast (z : ℤ) : pyIntTrunc (z : ℚ) = z := by
  unfold pyIntTrunc
  by_cases h : (0:ℚ) ≤ (z:ℚ)
  · rw [if_pos h, Int.floor_intCast]
  · rw [if_neg h, Int.ceil_intCast]

theorem change_axis_lat (k w : ℤ) :
    change_axis_to_index ((k : ℚ) / 4) (w : ℚ) "latitude" =
      some (k + 332 - 2 * w, k + 332 + 2 * w) := by
  unfold change_axis_to_index
  rw [if_pos rfl]
  have h1 : (((k:ℚ)/4 - (w:ℚ)/2) + 83) * 4 = ((k + 332 - 2*w : ℤ) : ℚ) := by
    push_cast; ring
  have h2 : (((k:ℚ)/4 + (w:ℚ)/2) + 83) * 4 = ((k + 332 + 2*w : ℤ) : ℚ) := by
    push_cast; ring
  rw [h1, h2, pyIntTrunc_intCast, pyIntTrunc_intCast]

theorem change_axis_lon (k w : ℤ) :
    change_axis_to_index ((k : ℚ) / 4) (w : ℚ) "longitude" =
      some (k - 2 * w, k + 2 * w) := by
  unfold change_axis_to_index
  rw [if_neg (by decide), if_pos rfl]
  have h1 : ((k:ℚ)/4 - (w:ℚ)/2) * 4 = ((k - 2*w : ℤ) : ℚ) := by push_cast; ring
  have h2 : ((k:ℚ)/4 + (w:ℚ)/2) * 4 = ((k + 2*w : ℤ) : ℚ) := by push_cast; ring
  rw [h1, h2, pyIntTrunc_intCast, pyIntTrunc_intCast]

theorem pyListSlice_length {α : Type} (l : List α) (a b : ℤ)
    (ha : 0 ≤ a) (hab : a ≤ b) (hb : b ≤ (l.length : ℤ)) :
    ((pyListSlice l a b).length : ℤ) = b - a := by
  unfold pyListSlice
  simp only []
  rw [if_neg (by omega), if_neg (by omega)]
  rw [List.length_drop, List.length_take]
  omega

theorem pyListSlice_subset {α : Type} {l : List α} {a b : ℤ} {x : α}
    (h : x ∈ pyListSlice l a b) : x ∈ l := by
  unfold pyListSlice at h
  simp only [] at h
  exact List.mem_of_mem_take (List.mem_of_mem_drop h)

/-- C4 counterexample: the claim asserts the patch shape unconditionally
for every accepted record, but a record can be accepted while its index
window leaves the grid: at rounded longitude 0 with zonal half-width 1 the
column window is [-2, 2], and the numpy slice [-2:3] on the longitude axis
wraps (start becomes length - 2 past the stop), yielding an empty row, so
the patch does not have 4*zonal_width + 1 = 5 columns.  Stated as the
negation of the unconditional shape property over rectangular grids,
refuted at that concrete input. -/
theorem claim_C4_counterexample :
    ¬ (∀ (cfg : HParams) (argoLat argoLon : ℚ) (file : GridFile) (C : ℕ)
        (patch : List (List Cell)),
        (∀ row ∈ file.zos, row.length = C) →
        crop_map cfg argoLat argoLon file "ssh" = some patch →
        (patch.length : ℤ) = 4 * cfg.meridionalDist + 1 ∧
        ∀ row ∈ patch, (row.length : ℤ) = 4 * cfg.zonalDist + 1) := by
  intro h
  have hRHU1 : roundHalfUp ((-83 : ℚ) * 4) = -332 := by
    unfold roundHalfUp
    norm_num
  have hRHU2 : roundHalfUp ((1/20 : ℚ) * 4) = 0 := by
    unfold roundHalfUp
    norm_num
  have hcrop : crop_map cfgWrap (-83) (1/20) gridWide "ssh" = some [[]] := by
    unfold crop_map
    simp only [round_to_grid]
    rw [hRHU1, hRHU2, change_axis_lat, change_axis_lon]
    rfl
  have h2 := h cfgWrap (-83) (1/20) gridWide 5 [[]] (by decide) hcrop
  have h3 := h2.2 [] (by decide)
  exact absurd h3 (by decide)

/-- C4 (amended): whenever the inclusive index window of the profile lies
inside the (rectangular) grid of the selected variable on both axes, the
cropped ssh or sst patch has exactly 4*meridional_width + 1 rows and
4*zonal_width + 1 columns, where the widths are the configured crop
half-widths in degrees (first conjunct); a window leaving the grid is
clipped or wrapped by the slice to a smaller patch, as the counterexample
shows.  The index window computed by `change_axis_to_index` is inclusive
at both ends with min and max indices center ± 2*width on the
quarter-degree grid (second conjunct), latitude index 0 corresponds to
-83.0 degrees and longitude index 0 to 0 degrees with no offset (third
and fourth conjuncts). -/
theorem claim_C4 :
    (∀ (cfg : HParams) (argoLat argoLon : ℚ) (file : GridFile) (dt : String) (C : ℕ),
      (∀ row ∈ (if dt = "ssh" then file.zos
          else if dt = "sst" then file.thetao else file.zos), row.length = C) →
      0 ≤ cfg.meridionalDist → 0 ≤ cfg.zonalDist →
      0 ≤ roundHalfUp (argoLat * 4) + 332 - 2 * cfg.meridionalDist →
      roundHalfUp (argoLat * 4) + 332 + 2 * cfg.meridionalDist <
        (((if dt = "ssh" then file.zos
          else if dt = "sst" then file.thetao else file.zos).length : ℤ)) →
      0 ≤ roundHalfUp (argoLon * 4) - 2 * cfg.zonalDist →
      roundHalfUp (argoLon * 4) + 2 * cfg.zonalDist < (C : ℤ) →
      ∃ patch, crop_map cfg argoLat argoLon file dt = some patch ∧
        (patch.length : ℤ) = 4 * cfg.meridionalDist + 1 ∧
        ∀ row ∈ patch, (row.length : ℤ) = 4 * cfg.zonalDist + 1) ∧
    (∀ (k w : ℤ),
      change_axis_to_index ((k : ℚ) / 4) (w : ℚ) "latitude" =
        some (k + 332 - 2 * w, k + 332 + 2 * w) ∧
      change_axis_to_index ((k : ℚ) / 4) (w : ℚ) "longitude" =
        some (k - 2 * w, k + 2 * w)) ∧
    change_axis_to_index (-83 : ℚ) 0 "latitude" = some (0, 0) ∧
    change_axis_to_index (0 : ℚ) 0 "longitude" = some (0, 0) := by
  refine ⟨?_, fun k w => ⟨change_axis_lat k w, change_axis_lon k w⟩, ?_, ?_⟩
  · intro cfg argoLat argoLon file dt C hrect hmd hzd h1 h2 h3 h4
    unfold crop_map
    simp only [round_to_grid]
    rw [change_axis_lat, change_axis_lon]
    simp only []
    refine ⟨_, rfl, ?_, ?_⟩
    · rw [List.length_map, List.length_map]
      rw [pyListSlice_length _ _ _ (by omega) (by omega) (by omega)]
      ring
    · intro row hrow
      simp only [List.mem_map] at hrow
      obtain ⟨row1, hrow1, hrow2⟩ := hrow
      obtain ⟨row0, hrow0, hrow01⟩ := hrow1
      rw [← hrow2, ← hrow01]
      rw [List.length_map]
      have hmem : row0 ∈ (if dt = "ssh" then file.zos
          else if dt = "sst" then file.thetao else file.zos) := pyListSlice_subset hrow0
      have hC := hrect row0 hmem
      rw [pyListSlice_length _ _ _ (by omega) (by omega) (by rw [hC]; omega)]
      ring
  · unfold change_axis_to_index
    rw [if_pos rfl]
    have h1 : (((-83 : ℚ) - 0/2) + 83) * 4 = ((0 : ℤ) : ℚ) := by norm_num
    have h2 : (((-83 : ℚ) + 0/2) + 83) * 4 = ((0 : ℤ) : ℚ) := by norm_num
    rw [h1, h2, pyIntTrunc_intCast]
  · unfold change_axis_to_index
    rw [if_neg (by decide), if_pos rfl]
    have h1 : ((0 : ℚ) - 0/2) * 4 = ((0 : ℤ) : ℚ) := by norm_num
    have h2 : ((0 : ℚ) + 0/2) * 4 = ((0 : ℤ) : ℚ) := by norm_num
    rw [h1, h2, pyIntTrunc_intCast]

/-- Sanity witness for C4: a zero half-width crop at latitude -83, longitude
0 on a one-cell grid gives a 1 by 1 patch. -/
theorem claim_C4_witness :
    (0:ℤ) ≤ cfgZero.meridionalDist ∧
    ∃ patch, crop_map cfgZero (-83) 0 gridOne "ssh" = some patch ∧
      (patch.length : ℤ) = 4 * cfgZero.meridionalDist + 1 ∧
      ∀ row ∈ patch, (row.length : ℤ) = 4 * cfgZero.zonalDist + 1 := by
  have hr : roundHalfUp ((-83:ℚ) * 4) = -332 := by
    unfold roundHalfUp
    norm_num
  have hr0 : roundHalfUp ((0:ℚ) * 4) = 0 := by
    unfold roundHalfUp
    norm_num
  exact ⟨by decide, claim_C4.1 cfgZero (-83) 0 gridOne "ssh" 1 (by decide) (by decide)
    (by decide) (by rw [hr]; decide) (by rw [hr]; decide) (by rw [hr0]; decide)
    (by rw [hr0]; decide)⟩

/-- C6: `calc_days_elapsed` is the signed integer difference of the two
dates' Julian day numbers under the proleptic Gregorian calendar (it is
defined as the difference of the `jdcal` day numbers): it is zero on equal
dates, strictly monotonically increasing in its first argument for a fixed
reference date, and negative exactly when the date precedes the reference
date. -/
theorem claim_C6 : ∀ (d ref d1 d2 : Date3),
    validDate d → validDate ref → validDate d1 → validDate d2 →
    calc_days_elapsed d d = 0 ∧
    (dateLt d1 d2 → calc_days_elapsed d1 ref < calc_days_elapsed d2 ref) ∧
    (dateLt d ref → calc_days_elapsed d ref < 0) := by
  intro d ref d1 d2 hd href hd1 hd2
  refine ⟨by unfold calc_days_elapsed; omega, ?_, ?_⟩
  · intro hlt
    have h := gcal2jd_lt_of_dateLt hd1 hd2 hlt
    unfold calc_days_elapsed
    omega
  · intro hlt
    have h := gcal2jd_lt_of_dateLt hd href hlt
    unfold calc_days_elapsed
    omega

/-- Sanity witness for C6 on concrete dates around 2010-01-01. -/
theorem claim_C6_witness :
    validDate ((2010, 1, 1) : Date3) ∧
    calc_days_elapsed (2010, 1, 1) (2010, 1, 1) = 0 ∧
    (dateLt (2010, 1, 1) (2010, 1, 2) →
      calc_days_elapsed (2010, 1, 1) (2000, 1, 1) <
        calc_days_elapsed (2010, 1, 2) (2000, 1, 1)) := by
  have h := claim_C6 (2010, 1, 1) (2000, 1, 1) (2010, 1, 1) (2010, 1, 2)
    (by decide) (by decide) (by decide) (by decide)
  exact ⟨by decide, h.1, h.2.1⟩
